import Mathlib

/-!
# Verification of the missing-value imputation engine

A shallow embedding of `Missing value imputation.py`: the data sanitizer, the
missingness reporter (`make_missingness_table`), the `start_imputation`
orchestration, and — since the chained-equations core is delegated to the
`miceforest` library call `ImputationKernel(df, random_state=42); kernel.mice(3);
kernel.complete_data(0)` — a chained-equations engine modelled from the
specification (§4.3), marked `Modelled from the spec:` below.

Python floats are embedded as exact fractions (`Frac`); the float NaN that
pandas uses as the missing marker is the single `Cell.missing` constructor, and
`±inf` are explicit cell constructors.  Percentages rounded to two decimals are
carried as integers scaled by 100 so that every computation kernel-reduces.
-/

/-- An exact rational `n / d`.  Every constructor below keeps `d` positive, so
this is a kernel-computable stand-in for the (finite) Python floats flowing
through the program.  Fractions are not normalised; no part of the program
compares two independently computed numeric values for equality. -/
structure Frac where
  n : Int
  d : Nat
deriving DecidableEq

def Frac.add (a b : Frac) : Frac := ⟨a.n * b.d + b.n * a.d, a.d * b.d⟩

def Frac.neg (a : Frac) : Frac := ⟨-a.n, a.d⟩

/-- Division by a (positive) natural number. -/
def Frac.divNat (a : Frac) (m : Nat) : Frac := ⟨a.n, a.d * m⟩

/-- Multiplication by an integer power of ten (for scientific notation). -/
def Frac.mulPow10 (a : Frac) (z : Int) : Frac :=
  match z with
  | Int.ofNat k => ⟨a.n * (10 ^ k : Nat), a.d⟩
  | Int.negSucc k => ⟨a.n, a.d * 10 ^ (k + 1)⟩

def fracSum (l : List Frac) : Frac := l.foldl Frac.add ⟨0, 1⟩

/-- The arithmetic mean of a list of fractions (0 on the empty list). -/
def meanQ (l : List Frac) : Frac := (fracSum l).divNat l.length

/-- Round `a / b` (with `b > 0`) to the nearest integer, ties to even — the
rounding used by numpy/pandas `.round`. -/
def rheInt (a : Int) (b : Nat) : Int :=
  let f := a.fdiv b
  let r2 := 2 * (a - f * b)
  if r2 < (b : Int) then f
  else if (b : Int) < r2 then f + 1
  else if f % 2 = 0 then f else f + 1

/-- `round(count / n * 100, 2)` from `make_missingness_table`, represented as
the percentage scaled by 100 (an integer, since the result has two decimals):
`some (rheInt (count * 10000) n)`.  For a frame with `n = 0` rows the Python
expression is the float division `0 / 0 = NaN`, modelled as `none`. -/
def pctOf (count n : Nat) : Option Int :=
  if n = 0 then none else some (rheInt (count * 10000) n)

/-- One cell of a loaded dataframe: the NaN missing marker, a finite float, a
signed infinity, or a string. -/
inductive Cell where
  | missing
  | num (q : Frac)
  | posInf
  | negInf
  | str (s : String)
deriving DecidableEq

/-- A string consisting only of whitespace, including the empty string —
what the regex `^\s*$` of line 82 matches. -/
def isBlankStr (s : String) : Bool := s.data.all Char.isWhitespace

def digitsVal (l : List Char) : Nat := l.foldl (fun n c => 10 * n + (c.toNat - 48)) 0

def trimChars (l : List Char) : List Char :=
  ((l.dropWhile Char.isWhitespace).reverse.dropWhile Char.isWhitespace).reverse

/-- An unsigned decimal mantissa: `12`, `12.5`, `12.`, `.5`. -/
def parseMantissa (l : List Char) : Option Frac :=
  let ip := l.takeWhile Char.isDigit
  let rest := l.dropWhile Char.isDigit
  match rest with
  | [] => if ip.isEmpty then none else some ⟨(digitsVal ip : Int), 1⟩
  | '.' :: rest2 =>
    let fp := rest2.takeWhile Char.isDigit
    let rest3 := rest2.dropWhile Char.isDigit
    if rest3.isEmpty && !(ip.isEmpty && fp.isEmpty) then
      some ⟨(digitsVal ip : Int) * ((10 : Nat) ^ fp.length : Nat) + (digitsVal fp : Int),
            (10 : Nat) ^ fp.length⟩
    else none
  | _ => none

/-- The exponent part after `e`/`E`: an optional sign and a nonempty digit run. -/
def parseExpPart (l : List Char) : Option Int :=
  match l with
  | '+' :: r => if r.isEmpty || !(r.all Char.isDigit) then none else some (digitsVal r : Int)
  | '-' :: r => if r.isEmpty || !(r.all Char.isDigit) then none else some (-(digitsVal r : Int))
  | r => if r.isEmpty || !(r.all Char.isDigit) then none else some (digitsVal r : Int)

def splitAtExp (l : List Char) : List Char × Option (List Char) :=
  match l.findIdx? (fun c => c == 'e' || c == 'E') with
  | none => (l, none)
  | some i => (l.take i, some (l.drop (i + 1)))

def parseUnsigned (l : List Char) : Option Frac :=
  match splitAtExp l with
  | (m, none) => parseMantissa m
  | (m, some e) =>
    match parseMantissa m, parseExpPart e with
    | some q, some z => some (q.mulPow10 z)
    | _, _ => none

/-- The body of a numeric token after the optional sign: the spellings
`inf` / `infinity` / `nan` (case-insensitive, as accepted by Python float
parsing and hence by `pd.to_numeric`), or decimal/scientific notation. -/
def parseBody (neg : Bool) (l : List Char) : Option Cell :=
  let low := l.map Char.toLower
  if low = "inf".data ∨ low = "infinity".data then
    some (if neg then Cell.negInf else Cell.posInf)
  else if low = "nan".data then some Cell.missing
  else (parseUnsigned l).map fun q => Cell.num (if neg then q.neg else q)

/-- The numeric reading `pd.to_numeric` gives a string: `none` means the string
is not parseable as a number (a `ValueError`, coerced to NaN on line 86). -/
def parseNumericStr (s : String) : Option Cell :=
  match trimChars s.data with
  | [] => none
  | '+' :: r => parseBody false r
  | '-' :: r => parseBody true r
  | l => parseBody false l

/-- `pd.to_numeric(·, errors="coerce")` on one cell: floats (including NaN and
the infinities) pass through, strings are parsed, unparseable strings
degrade to NaN. -/
def toNumericCell : Cell → Cell
  | Cell.str s => (parseNumericStr s).getD Cell.missing
  | c => c

/-- `df.replace([np.inf, -np.inf], np.nan)` on one cell (line 81). -/
def replaceInfCell : Cell → Cell
  | Cell.posInf => Cell.missing
  | Cell.negInf => Cell.missing
  | c => c

/-- `df.replace(r'^\s*$', np.nan, regex=True)` on one cell (line 82): the regex
only matches string cells. -/
def replaceBlankCell : Cell → Cell
  | Cell.str s => if isBlankStr s then Cell.missing else Cell.str s
  | c => c

/-- A named dataframe column. -/
structure Column where
  name : String
  cells : List Cell
deriving DecidableEq

def Column.mapCells (f : Cell → Cell) (c : Column) : Column := ⟨c.name, c.cells.map f⟩

/-- A dataframe: an ordered sequence of named columns. -/
structure Dataset where
  cols : List Column
deriving DecidableEq

def Dataset.mapCells (f : Cell → Cell) (d : Dataset) : Dataset :=
  ⟨d.cols.map (Column.mapCells f)⟩

def Dataset.names (d : Dataset) : List String := d.cols.map Column.name

/-- `len(df)`: the row count.  pandas frames are rectangular; on the embedding
side rectangularity is the predicate `Dataset.Rect` below. -/
def Dataset.nrows (d : Dataset) : Nat :=
  match d.cols with
  | [] => 0
  | c :: _ => c.cells.length

def Dataset.Rect (d : Dataset) : Prop := ∀ c ∈ d.cols, c.cells.length = d.nrows

instance (d : Dataset) : Decidable d.Rect := by
  unfold Dataset.Rect; infer_instance

/-- `df[col].isna().sum()` for one column. -/
def countMissing (c : Column) : Nat := c.cells.countP (fun x => decide (x = Cell.missing))

/-- `df[col].isnull().any()` (line 91). -/
def Column.hasMissing (c : Column) : Bool := c.cells.any (fun x => decide (x = Cell.missing))

/-- The total number of MISSING cells of the frame. -/
def Dataset.totalMissing (d : Dataset) : Nat := (d.cols.map countMissing).sum

/-- The value of line 91's `missing_columns` on a frame with unique column
labels: names of the columns with any missing cell, in column order.  The
computation itself raises on duplicate labels — that is `missingColNamesE`
below. -/
def missingColNames (d : Dataset) : List String :=
  (d.cols.filter Column.hasMissing).map Column.name

/-- One `df[col] = pd.to_numeric(df[col], errors="coerce")` assignment
(lines 85–86).  `df[col]` raises a `KeyError` when `col` names no column, and
`pd.to_numeric` raises a `TypeError` when `col` names more than one column
(the selection is then a DataFrame); both escape `start_imputation`, which has
no handler around this loop. -/
def coerceNamed (d : Dataset) (nm : String) : Except String Dataset :=
  match d.cols.countP (fun c => decide (c.name = nm)) with
  | 0 => Except.error ("KeyError: " ++ nm)
  | 1 => Except.ok ⟨d.cols.map fun c =>
           if c.name = nm then c.mapCells toNumericCell else c⟩
  | _ => Except.error ("TypeError: not a Series: " ++ nm)

/-- The `for col in num_cols:` coercion loop of lines 85–86. -/
def coerceAll (numCols : List String) (d : Dataset) : Except String Dataset :=
  numCols.foldlM coerceNamed d

/-- The data-cleaning block of lines 81–86: replace the infinities, blank out
whitespace-only strings, then coerce the user-selected continuous columns. -/
def sanitizeE (numCols : List String) (d : Dataset) : Except String Dataset :=
  coerceAll numCols ((d.mapCells replaceInfCell).mapCells replaceBlankCell)

/-- One row of the missingness table: the column name, `missing_n`,
`missing_pct(%)` (scaled by 100, `none` for NaN), and the original column
position — the DataFrame index label, which `sort_values` carries along. -/
structure MRow where
  varName : String
  missing_n : Nat
  missing_pct : Option Int
  idx : Nat
deriving DecidableEq

/-- The rows of the missingness table before sorting, one per column in
column order (lines 61–67). -/
def mkRowsFrom (nr : Nat) (i : Nat) : List Column → List MRow
  | [] => []
  | c :: cs => ⟨c.name, countMissing c, pctOf (countMissing c) nr, i⟩ :: mkRowsFrom nr (i + 1) cs

def mkRows (d : Dataset) : List MRow := mkRowsFrom d.nrows 0 d.cols

/-- The descending order on percentages used by
`sort_values("missing_pct(%)", ascending=False)`: NaN (`none`) sorts last
(pandas `na_position="last"`). -/
def pctGE (a b : Option Int) : Bool :=
  match a, b with
  | _, none => true
  | none, some _ => false
  | some x, some y => decide (y ≤ x)

def insertRow (a : MRow) : List MRow → List MRow
  | [] => [a]
  | b :: l => if pctGE a.missing_pct b.missing_pct then a :: b :: l else b :: insertRow a l

/-- The `sort_values("missing_pct(%)", ascending=False)` call of line 68,
embedded as a stable descending insertion sort with NaNs last (pandas
`na_position="last"`).  This realizes the contract the spec documents for the
reporter — "ties broken by original column order (stable sort)".  The source
calls `sort_values` with the pandas default `kind="quicksort"`, which only
matches this order up to numpy's 16-element insertion-sort cutoff; on wider
tables with tied percentages the program's tie order is implementation-defined
(introsort partition swaps) — the divergence recorded at claim C2. -/
def sortRows : List MRow → List MRow
  | [] => []
  | a :: l => insertRow a (sortRows l)

/-- `make_missingness_table` (lines 60–69). -/
def make_missingness_table (d : Dataset) : List MRow := sortRows (mkRows d)

/-- Column roles: the listbox selection is the set of Continuous column names;
every other column defaults to Categorical (§ Schema Classifier). -/
inductive Role where
  | continuous
  | categorical
deriving DecidableEq

def roleOf (numCols : List String) (nm : String) : Role :=
  if nm ∈ numCols then Role.continuous else Role.categorical

/-- Modelled from the spec: the deterministic seed stream governing the
engine's randomized steps (§4.3 Inputs).  A 64-bit linear congruential step. -/
def lcgNext (s : Nat) : Nat :=
  (6364136223846793005 * s + 1442695040888963407) % (2 ^ 64)

/-- Modelled from the spec: initialization draws come from the column's
observed values (§4.3 step 1), but for a fully missing column the spec demands
a non-fatal outcome (§8, fully-missing scenario) while leaving the draw
unspecified; a fixed role-dependent default stands in for that draw. -/
def defaultCell : Role → Cell
  | Role.continuous => Cell.num ⟨0, 1⟩
  | Role.categorical => Cell.str ""

/-- The observed (non-missing) cells of a column. -/
def observedCells (l : List Cell) : List Cell := l.filter (fun c => decide (¬ c = Cell.missing))

/-- Modelled from the spec: one uniform draw (with replacement) from the
observed empirical distribution, advancing the seed stream (§4.3 step 1). -/
def drawCell (role : Role) (obs : List Cell) (st : Nat) : Cell × Nat :=
  let st2 := lcgNext st
  match obs with
  | [] => (defaultCell role, st2)
  | o :: os => ((o :: os).get ⟨st2 % (os.length + 1), Nat.mod_lt _ (Nat.succ_pos _)⟩, st2)

/-- Modelled from the spec: fill every missing cell of one column with an
initialization draw, threading the seed stream. -/
def initCells (role : Role) (obs : List Cell) : List Cell → Nat → List Cell × Nat
  | [], st => ([], st)
  | c :: cs, st =>
    if c = Cell.missing then
      let p := drawCell role obs st
      let q := initCells role obs cs p.2
      (p.1 :: q.1, q.2)
    else
      let q := initCells role obs cs st
      (c :: q.1, q.2)

def initColumn (numCols : List String) (c : Column) (st : Nat) : Column × Nat :=
  let r := initCells (roleOf numCols c.name) (observedCells c.cells) c.cells st
  (⟨c.name, r.1⟩, r.2)

/-- Modelled from the spec: §4.3 step 1, columns visited left to right. -/
def initAll (numCols : List String) : List Column → Nat → List Column
  | [], _ => []
  | c :: cs, st =>
    let p := initColumn numCols c st
    p.1 :: initAll numCols cs p.2

def numVals (l : List Cell) : List Frac :=
  l.filterMap fun c => match c with | Cell.num q => some q | _ => none

/-- The most frequent element, first occurrence winning ties. -/
def pickMode (l : List Cell) (b : Cell) : List Cell → Cell
  | [] => b
  | x :: xs =>
    pickMode l
      (if l.countP (fun y => decide (y = b)) < l.countP (fun y => decide (y = x)) then x else b)
      xs

def modeCell (l : List Cell) : Cell :=
  match l with
  | [] => Cell.missing
  | c :: cs => pickMode (c :: cs) c cs

/-- Modelled from the spec: the per-column Predictor (§4.3 step 2b), trained on
the rows where the target is observed in the original missingness mask.  The
spec fixes only the contract — a regression-style real-valued estimate for
Continuous targets, an observed label for Categorical targets, the single-label
fallback subsumed — so the concrete predictors are the intercept-only
regressor (mean of observed targets) and the majority label.  `none` is the
empty-training-set skip of §4.3 step 2d. -/
def predictVal (role : Role) (origCells : List Cell) : Option Cell :=
  match observedCells origCells with
  | [] => none
  | o :: os =>
    some (match role with
      | Role.continuous => Cell.num (meanQ (numVals (o :: os)))
      | Role.categorical => modeCell (o :: os))

/-- Replace the working values at the originally missing rows with the
predicted value, leaving observed rows untouched (§4.3 step 2c). -/
def overwriteMissing (orig work : List Cell) (v : Cell) : List Cell :=
  List.zipWith (fun o w => if o = Cell.missing then v else w) orig work

def setAt (w : List Column) (i : Nat) (f : Column → Column) : List Column :=
  match w, i with
  | [], _ => []
  | c :: cs, 0 => f c :: cs
  | c :: cs, j + 1 => c :: setAt cs j f

/-- Modelled from the spec: one target-column visit of the refinement pass
(§4.3 step 2): only columns that originally had missing cells are refit, only
their originally missing rows are overwritten. -/
def refineColumn (numCols : List String) (orig : Dataset) (w : List Column) (i : Nat) :
    List Column :=
  match orig.cols.get? i with
  | none => w
  | some oc =>
    if oc.hasMissing then
      match predictVal (roleOf numCols oc.name) oc.cells with
      | none => w
      | some v => setAt w i (fun c => ⟨c.name, overwriteMissing oc.cells c.cells v⟩)
    else w

/-- Modelled from the spec: one full refinement pass over the columns in their
original left-to-right order (§4.3 step 2). -/
def refinePass (numCols : List String) (orig : Dataset) (w : List Column) : List Column :=
  (List.range orig.cols.length).foldl (refineColumn numCols orig) w

/-- Modelled from the spec: one chain — initialization then `iters` refinement
passes (§4.3 steps 1–3). -/
def chainRun (iters : Nat) (numCols : List String) (seed : Nat) (orig : Dataset) : Dataset :=
  ⟨(refinePass numCols orig)^[iters] (initAll numCols orig.cols seed)⟩

/-- A fatal engine failure (§7 `DataValidityError`), carrying the offending
column names. -/
structure EngineError where
  tag : String
  cols : List String
deriving DecidableEq

/-- The duplicated column names. -/
def dupNames (d : Dataset) : List String :=
  (d.names.filter (fun nm => 1 < d.names.countP (fun m => decide (m = nm)))).dedup

/-- Continuous columns still holding a string cell — columns that cannot be
represented numerically. -/
def nonNumericContCols (numCols : List String) (d : Dataset) : List String :=
  (d.cols.filter fun c =>
      decide (roleOf numCols c.name = Role.continuous) &&
      c.cells.any (fun x => match x with | Cell.str _ => true | _ => false)).map Column.name

/-- Modelled from the spec: the engine's fatal error conditions (§4.3 Error
conditions, §7): an empty dataset, non-unique column names, or a declared
Continuous column that cannot be represented numerically. -/
def checkValidity (numCols : List String) (d : Dataset) : Option EngineError :=
  if d.cols.isEmpty ∨ d.nrows = 0 then some ⟨"empty dataset", []⟩
  else if ¬ d.names.Nodup then some ⟨"duplicate column names", dupNames d⟩
  else
    match nonNumericContCols numCols d with
    | [] => none
    | l => some ⟨"non-numeric continuous columns", l⟩

/-- Modelled from the spec: the Chained-Equations Engine (§4.3) standing in for
`ImputationKernel` / `mice` / `complete_data`: validity check, then `chains`
independent chains with sub-seeds `seed + chainIndex` (§5), each running
`iters` refinement passes. -/
def engineRun (iters chains : Nat) (numCols : List String) (seed : Nat) (d : Dataset) :
    Except EngineError (List Dataset) :=
  match checkValidity numCols d with
  | some e => Except.error e
  | none => Except.ok ((List.range chains).map fun k => chainRun iters numCols (seed + k) d)

/-- The module-level mutable state the GUI callbacks share. -/
structure Globals where
  data : Option Dataset
  outputExcelPath : Option String
  outputFolder : Option String
deriving DecidableEq

inductive Sheet where
  | table (t : List MRow)
  | frame (d : Dataset)
deriving DecidableEq

/-- Everything one `start_imputation` call produces: the state left behind, the
message boxes, the Excel workbook (sheet name × contents) if an output path was
chosen, the diagnostic image files, and the session-level results (the
missingness table, the sanitized original, the completed datasets). -/
structure RunResult where
  globalsAfter : Globals
  errorBox : Option String
  infoBox : Option String
  workbook : Option (List (String × Sheet))
  images : List String
  missingnessTable : List MRow
  sanitizedOriginal : Option Dataset
  completedDatasets : List Dataset
deriving DecidableEq

/-- `start_imputation` either returns normally (`finished`) or lets an uncaught
exception escape the Tk callback (`crashed`). -/
inductive RunOutcome where
  | crashed (msg : String)
  | finished (r : RunResult)
deriving DecidableEq

def msgNoFile : String := "select a data file first"

def msgNoMissing : String := "no missing values; wrote missingness table and original data"

def msgDone : String := "imputation finished"

def failPrefix : String := "imputation failed: "

def renderErr (e : EngineError) : String :=
  e.tag ++ String.join (e.cols.map (fun nm => " " ++ nm))

def msgAmbiguous : String :=
  "ValueError: The truth value of a Series is ambiguous"

/-- Line 91, `[col for col in df.columns if df[col].isnull().any()]`, as the
code runs it: when a column label is duplicated, `df[col]` returns a DataFrame,
`.isnull().any()` a Series, and `if Series` raises a ValueError — uncaught,
since line 91 sits before the `try` block.  With unique labels it returns the
missing-valued column names in column order. -/
def missingColNamesE (d : Dataset) : Except String (List String) :=
  if d.names.Nodup then Except.ok (missingColNames d) else Except.error msgAmbiguous

/-- The result of the `if not missing_columns:` branch (lines 92–99): report,
write the two-sheet workbook when an output path is set, and return with no
completed datasets. -/
def noMissingResult (g : Globals) (tbl : List MRow) (df : Dataset) : RunResult :=
  { globalsAfter := g, errorBox := none, infoBox := some msgNoMissing,
    workbook := g.outputExcelPath.map fun _ =>
      [("Missingness", Sheet.table tbl), ("Data_Original", Sheet.frame df)],
    images := [], missingnessTable := tbl,
    sanitizedOriginal := some df, completedDatasets := [] }

/-- The result of the `except Exception` handler (lines 154–155): the failure
is reported in a message box; nothing has been written. -/
def engineFailResult (g : Globals) (tbl : List MRow) (df : Dataset) (e : EngineError) :
    RunResult :=
  { globalsAfter := g, errorBox := some (failPrefix ++ renderErr e), infoBox := none,
    workbook := none, images := [], missingnessTable := tbl,
    sanitizedOriginal := some df, completedDatasets := [] }

/-- The success path (lines 106–152): three-sheet workbook when an output path
is set, one diagnostic image per missing column when an image folder is set. -/
def engineOkResult (g : Globals) (tbl : List MRow) (df : Dataset) (missingCols : List String)
    (ds : List Dataset) : RunResult :=
  { globalsAfter := g, errorBox := none, infoBox := some msgDone,
    workbook := g.outputExcelPath.map fun _ =>
      [("Missingness", Sheet.table tbl), ("Data_Original", Sheet.frame df),
       ("Data_Imputed", Sheet.frame (ds.headD df))],
    images := match g.outputFolder with
      | none => []
      | some _ => missingCols.map (fun nm => nm ++ ".png"),
    missingnessTable := tbl,
    sanitizedOriginal := some df, completedDatasets := ds }

/-- Lines 88–155 after a successful cleaning step: build the missingness
table, compute `missing_columns` (which raises, uncaught, on duplicate column
labels), short-circuit when nothing is missing, otherwise run the
(spec-modelled) engine and dispatch on its outcome. -/
def afterSanitize (g : Globals) (numCols : List String) (df : Dataset) : RunOutcome :=
  let tbl := make_missingness_table df
  match missingColNamesE df with
  | Except.error m => RunOutcome.crashed m
  | Except.ok missingCols =>
    if missingCols = [] then RunOutcome.finished (noMissingResult g tbl df)
    else
      match engineRun 3 1 numCols 42 df with
      | Except.error e => RunOutcome.finished (engineFailResult g tbl df e)
      | Except.ok ds => RunOutcome.finished (engineOkResult g tbl df missingCols ds)

/-- `start_imputation` (lines 72–155).  The plotting internals are out of core
scope; the embedding records which image files the loop of lines 114–150 saves.
The three `mf.`/`kernel.` calls of lines 102–104 are the spec-modelled
`engineRun 3 1 numCols 42`, and the surrounding `try/except` is the match on
its `Except` result. -/
def start_imputation (g : Globals) (numCols : List String) : RunOutcome :=
  match g.data with
  | none => RunOutcome.finished
      { globalsAfter := g, errorBox := some msgNoFile, infoBox := none,
        workbook := none, images := [], missingnessTable := [],
        sanitizedOriginal := none, completedDatasets := [] }
  | some dat =>
    match sanitizeE numCols dat with
    | Except.error m => RunOutcome.crashed m
    | Except.ok df => afterSanitize g numCols df

def RunOutcome.isFinished : RunOutcome → Bool
  | RunOutcome.finished _ => true
  | RunOutcome.crashed _ => false

def RunOutcome.errOf : RunOutcome → Option String
  | RunOutcome.finished r => r.errorBox
  | RunOutcome.crashed m => some m

def RunOutcome.infoOf : RunOutcome → Option String
  | RunOutcome.finished r => r.infoBox
  | RunOutcome.crashed _ => none

def RunOutcome.workbookOf : RunOutcome → Option (List (String × Sheet))
  | RunOutcome.finished r => r.workbook
  | RunOutcome.crashed _ => none

def RunOutcome.imagesOf : RunOutcome → List String
  | RunOutcome.finished r => r.images
  | RunOutcome.crashed _ => []

def RunOutcome.tableOf : RunOutcome → List MRow
  | RunOutcome.finished r => r.missingnessTable
  | RunOutcome.crashed _ => []

def RunOutcome.sanitizedOf : RunOutcome → Option Dataset
  | RunOutcome.finished r => r.sanitizedOriginal
  | RunOutcome.crashed _ => none

def RunOutcome.completedOf : RunOutcome → List Dataset
  | RunOutcome.finished r => r.completedDatasets
  | RunOutcome.crashed _ => []

def RunOutcome.globalsOf : RunOutcome → Option Globals
  | RunOutcome.finished r => some r.globalsAfter
  | RunOutcome.crashed _ => none

instance {ε α : Type} [DecidableEq ε] [DecidableEq α] : DecidableEq (Except ε α) :=
  fun a b =>
    match a, b with
    | Except.ok x, Except.ok y =>
      if h : x = y then isTrue (by rw [h])
      else isFalse (fun hc => h (Except.ok.inj hc))
    | Except.error x, Except.error y =>
      if h : x = y then isTrue (by rw [h])
      else isFalse (fun hc => h (Except.error.inj hc))
    | Except.ok _, Except.error _ => isFalse (fun hc => Except.noConfusion hc)
    | Except.error _, Except.ok _ => isFalse (fun hc => Except.noConfusion hc)

/-! ## The sort used by the missingness table -/

theorem insertRow_perm (a : MRow) (l : List MRow) : List.Perm (insertRow a l) (a :: l) := by
  induction l with
  | nil => exact List.Perm.refl _
  | cons b l ih =>
    unfold insertRow
    by_cases h : pctGE a.missing_pct b.missing_pct = true
    · simp [h]
    · simp only [h, if_false]
      exact List.Perm.trans (List.Perm.cons b ih) (List.Perm.swap a b l)

theorem sortRows_perm (l : List MRow) : List.Perm (sortRows l) l := by
  induction l with
  | nil => exact List.Perm.refl _
  | cons a l ih =>
    exact List.Perm.trans (insertRow_perm a (sortRows l)) (List.Perm.cons a ih)

theorem mem_sortRows {x : MRow} {l : List MRow} : x ∈ sortRows l ↔ x ∈ l :=
  (sortRows_perm l).mem_iff

theorem pctGE_refl (a : Option Int) : pctGE a a = true := by
  cases a <;> simp [pctGE]

theorem pctGE_total (a b : Option Int) : pctGE a b = true ∨ pctGE b a = true := by
  cases a <;> cases b <;> simp [pctGE] <;> omega

theorem pctGE_trans {a b c : Option Int} (h1 : pctGE a b = true) (h2 : pctGE b c = true) :
    pctGE a c = true := by
  cases a <;> cases b <;> cases c <;> simp [pctGE] at * <;> omega

theorem insertRow_sorted {a : MRow} {l : List MRow}
    (h : l.Pairwise (fun x y => pctGE x.missing_pct y.missing_pct = true)) :
    (insertRow a l).Pairwise (fun x y => pctGE x.missing_pct y.missing_pct = true) := by
  induction l with
  | nil => simp [insertRow]
  | cons b l ih =>
    rw [List.pairwise_cons] at h
    unfold insertRow
    by_cases hab : pctGE a.missing_pct b.missing_pct = true
    · simp only [hab, if_true]
      refine List.Pairwise.cons ?_ (List.Pairwise.cons h.1 h.2)
      intro x hx
      rcases List.mem_cons.mp hx with rfl | hx
      · exact hab
      · exact pctGE_trans hab (h.1 x hx)
    · simp only [hab, if_false]
      refine List.Pairwise.cons ?_ (ih h.2)
      intro x hx
      rcases List.mem_cons.mp ((insertRow_perm a l).mem_iff.mp hx) with rfl | hx
      · rcases pctGE_total x.missing_pct b.missing_pct with h1 | h1
        · exact absurd h1 hab
        · exact h1
      · exact h.1 x hx

theorem sortRows_sorted (l : List MRow) :
    (sortRows l).Pairwise (fun x y => pctGE x.missing_pct y.missing_pct = true) := by
  induction l with
  | nil => simp [sortRows]
  | cons a l ih => exact insertRow_sorted ih

theorem insertRow_stable {a : MRow} {l : List MRow}
    (hidx : ∀ b ∈ l, a.idx < b.idx)
    (h : l.Pairwise (fun x y => x.missing_pct = y.missing_pct → x.idx < y.idx)) :
    (insertRow a l).Pairwise (fun x y => x.missing_pct = y.missing_pct → x.idx < y.idx) := by
  induction l with
  | nil => simp [insertRow]
  | cons b l ih =>
    rw [List.pairwise_cons] at h
    unfold insertRow
    by_cases hab : pctGE a.missing_pct b.missing_pct = true
    · simp only [hab, if_true]
      refine List.Pairwise.cons ?_ (List.Pairwise.cons h.1 h.2)
      intro x hx _
      exact hidx x hx
    · simp only [hab, if_false]
      refine List.Pairwise.cons ?_ (ih (fun c hc => hidx c (List.mem_cons_of_mem b hc)) h.2)
      intro x hx
      rcases List.mem_cons.mp ((insertRow_perm a l).mem_iff.mp hx) with rfl | hx
      · intro hpct
        exact absurd (hpct ▸ pctGE_refl x.missing_pct) hab
      · exact h.1 x hx

theorem sortRows_stable {l : List MRow} (h : l.Pairwise (fun x y => x.idx < y.idx)) :
    (sortRows l).Pairwise (fun x y => x.missing_pct = y.missing_pct → x.idx < y.idx) := by
  induction l with
  | nil => simp [sortRows]
  | cons a l ih =>
    rw [List.pairwise_cons] at h
    refine insertRow_stable ?_ (ih h.2)
    intro b hb
    exact h.1 b (mem_sortRows.mp hb)

/-! ## The rows before sorting -/

theorem mkRowsFrom_idx_ge (nr : Nat) (i : Nat) (cs : List Column) :
    ∀ r ∈ mkRowsFrom nr i cs, i ≤ r.idx := by
  induction cs generalizing i with
  | nil => intro r hr; simp [mkRowsFrom] at hr
  | cons c cs ih =>
    intro r hr
    rcases List.mem_cons.mp hr with rfl | hr
    · exact Nat.le_refl _
    · exact Nat.le_of_succ_le (ih (i + 1) r hr)

theorem mkRowsFrom_idx_lt (nr : Nat) (i : Nat) (cs : List Column) :
    (mkRowsFrom nr i cs).Pairwise (fun x y => x.idx < y.idx) := by
  induction cs generalizing i with
  | nil => simp [mkRowsFrom]
  | cons c cs ih =>
    refine List.Pairwise.cons ?_ (ih (i + 1))
    intro r hr
    exact Nat.lt_of_lt_of_le (Nat.lt_succ_self i) (mkRowsFrom_idx_ge nr (i + 1) cs r hr)

theorem mkRowsFrom_get (nr : Nat) (i : Nat) (cs : List Column) (j : Nat) (c : Column)
    (h : cs.get? j = some c) :
    (⟨c.name, countMissing c, pctOf (countMissing c) nr, i + j⟩ : MRow) ∈ mkRowsFrom nr i cs := by
  induction cs generalizing i j with
  | nil => simp at h
  | cons b cs ih =>
    cases j with
    | zero =>
      simp only [List.get?] at h
      cases h
      exact List.mem_cons_self _ _
    | succ j =>
      simp only [List.get?] at h
      have := ih (i + 1) j h
      have harith : i + 1 + j = i + (j + 1) := by omega
      rw [harith] at this
      exact List.mem_cons_of_mem _ this

theorem mkRowsFrom_length (nr : Nat) (i : Nat) (cs : List Column) :
    (mkRowsFrom nr i cs).length = cs.length := by
  induction cs generalizing i with
  | nil => rfl
  | cons c cs ih => simp [mkRowsFrom, ih]

theorem mkRowsFrom_map_missing_n (nr : Nat) (i : Nat) (cs : List Column) :
    (mkRowsFrom nr i cs).map MRow.missing_n = cs.map countMissing := by
  induction cs generalizing i with
  | nil => rfl
  | cons c cs ih => simp [mkRowsFrom, ih]

/-! ## Engine: no cell of a completed working copy is missing -/

theorem observedCells_not_missing {l : List Cell} : ∀ x ∈ observedCells l, x ≠ Cell.missing := by
  intro x hx
  have := List.of_mem_filter hx
  simpa using this

theorem observedCells_sub {l : List Cell} : ∀ x ∈ observedCells l, x ∈ l := by
  intro x hx
  exact List.mem_of_mem_filter hx

theorem defaultCell_not_missing (role : Role) : defaultCell role ≠ Cell.missing := by
  cases role <;> simp [defaultCell]

theorem drawCell_not_missing {role : Role} {obs : List Cell} {st : Nat}
    (hobs : ∀ x ∈ obs, x ≠ Cell.missing) :
    (drawCell role obs st).1 ≠ Cell.missing := by
  unfold drawCell
  cases obs with
  | nil => exact defaultCell_not_missing role
  | cons o os =>
    dsimp only
    exact hobs _ (List.get_mem _ _ _)

theorem initCells_not_missing {role : Role} {obs : List Cell}
    (hobs : ∀ x ∈ obs, x ≠ Cell.missing) (cells : List Cell) (st : Nat) :
    ∀ x ∈ (initCells role obs cells st).1, x ≠ Cell.missing := by
  induction cells generalizing st with
  | nil => intro x hx; simp [initCells] at hx
  | cons c cs ih =>
    intro x hx
    by_cases hc : c = Cell.missing
    · simp only [initCells, if_pos hc] at hx
      rcases List.mem_cons.mp hx with rfl | hx
      · exact drawCell_not_missing hobs
      · exact ih _ x hx
    · simp only [initCells, if_neg hc] at hx
      rcases List.mem_cons.mp hx with rfl | hx
      · exact hc
      · exact ih _ x hx

theorem initAll_not_missing (numCols : List String) (cols : List Column) (st : Nat) :
    ∀ c ∈ initAll numCols cols st, ∀ x ∈ c.cells, x ≠ Cell.missing := by
  induction cols generalizing st with
  | nil => intro c hc; simp [initAll] at hc
  | cons c0 cs ih =>
    intro c hc
    simp only [initAll] at hc
    rcases List.mem_cons.mp hc with rfl | hc
    · intro x hx
      exact initCells_not_missing (observedCells_not_missing) c0.cells st x hx
    · exact ih _ c hc

theorem pickMode_mem (l : List Cell) (b : Cell) (xs : List Cell) : pickMode l b xs ∈ b :: xs := by
  induction xs generalizing b with
  | nil => simp [pickMode]
  | cons x xs ih =>
    unfold pickMode
    by_cases h : l.countP (fun y => decide (y = b)) < l.countP (fun y => decide (y = x))
    · rw [if_pos h]
      exact List.mem_cons_of_mem _ (ih x)
    · rw [if_neg h]
      rcases List.mem_cons.mp (ih b) with h1 | h1
      · rw [h1]; exact List.mem_cons_self _ _
      · exact List.mem_cons_of_mem _ (List.mem_cons_of_mem _ h1)

theorem predictVal_not_missing {role : Role} {origCells : List Cell} {v : Cell}
    (h : predictVal role origCells = some v) : v ≠ Cell.missing := by
  unfold predictVal at h
  cases hobs : observedCells origCells with
  | nil => rw [hobs] at h; cases h
  | cons o os =>
    rw [hobs] at h
    cases h
    cases role with
    | continuous => simp
    | categorical =>
      simp only []
      have hm : modeCell (o :: os) ∈ o :: os := pickMode_mem (o :: os) o os
      have : modeCell (o :: os) ∈ observedCells origCells := by rw [hobs]; exact hm
      exact observedCells_not_missing _ this

theorem overwriteMissing_not_missing {orig work : List Cell} {v : Cell}
    (hw : ∀ x ∈ work, x ≠ Cell.missing) (hv : v ≠ Cell.missing) :
    ∀ x ∈ overwriteMissing orig work v, x ≠ Cell.missing := by
  induction orig generalizing work with
  | nil => intro x hx; simp [overwriteMissing] at hx
  | cons o os ih =>
    intro x hx
    cases work with
    | nil => simp [overwriteMissing] at hx
    | cons w ws =>
      simp only [overwriteMissing, List.zipWith] at hx
      rcases List.mem_cons.mp hx with rfl | hx
      · by_cases ho : o = Cell.missing
        · rw [if_pos ho]; exact hv
        · rw [if_neg ho]; exact hw w (List.mem_cons_self _ _)
      · exact ih (fun y hy => hw y (List.mem_cons_of_mem _ hy)) x hx

theorem setAt_mem {w : List Column} {i : Nat} {f : Column → Column} {c : Column}
    (h : c ∈ setAt w i f) : c ∈ w ∨ ∃ c0, c0 ∈ w ∧ c = f c0 := by
  induction w generalizing i with
  | nil => simp [setAt] at h
  | cons c0 cs ih =>
    cases i with
    | zero =>
      simp only [setAt] at h
      rcases List.mem_cons.mp h with rfl | h
      · exact Or.inr ⟨c0, List.mem_cons_self _ _, rfl⟩
      · exact Or.inl (List.mem_cons_of_mem _ h)
    | succ j =>
      simp only [setAt] at h
      rcases List.mem_cons.mp h with rfl | h
      · exact Or.inl (List.mem_cons_self _ _)
      · rcases ih h with h1 | ⟨cc, hcc, rfl⟩
        · exact Or.inl (List.mem_cons_of_mem _ h1)
        · exact Or.inr ⟨cc, List.mem_cons_of_mem _ hcc, rfl⟩

theorem refineColumn_not_missing {numCols : List String} {orig : Dataset} {w : List Column}
    {i : Nat} (hw : ∀ c ∈ w, ∀ x ∈ c.cells, x ≠ Cell.missing) :
    ∀ c ∈ refineColumn numCols orig w i, ∀ x ∈ c.cells, x ≠ Cell.missing := by
  unfold refineColumn
  split
  · exact hw
  · split
    · split
      · exact hw
      · rename_i oc _ _ v hp
        intro c hc
        rcases setAt_mem hc with h1 | ⟨c0, hc0, rfl⟩
        · exact hw c h1
        · intro x hx
          exact overwriteMissing_not_missing (hw c0 hc0) (predictVal_not_missing hp) x hx
    · exact hw

theorem refineFold_not_missing {numCols : List String} {orig : Dataset}
    (idxs : List Nat) {w : List Column}
    (hw : ∀ c ∈ w, ∀ x ∈ c.cells, x ≠ Cell.missing) :
    ∀ c ∈ idxs.foldl (refineColumn numCols orig) w, ∀ x ∈ c.cells, x ≠ Cell.missing := by
  induction idxs generalizing w with
  | nil => exact hw
  | cons i idxs ih => exact ih (refineColumn_not_missing hw)

theorem refinePass_not_missing {numCols : List String} {orig : Dataset} {w : List Column}
    (hw : ∀ c ∈ w, ∀ x ∈ c.cells, x ≠ Cell.missing) :
    ∀ c ∈ refinePass numCols orig w, ∀ x ∈ c.cells, x ≠ Cell.missing :=
  refineFold_not_missing _ hw

theorem chainRun_not_missing (iters : Nat) (numCols : List String) (seed : Nat)
    (orig : Dataset) :
    ∀ c ∈ (chainRun iters numCols seed orig).cols, ∀ x ∈ c.cells, x ≠ Cell.missing := by
  unfold chainRun
  induction iters with
  | zero => exact initAll_not_missing numCols orig.cols seed
  | succ k ih =>
    rw [Function.iterate_succ_apply']
    exact refinePass_not_missing ih

theorem engineRun_ok_mem {iters chains : Nat} {numCols : List String} {seed : Nat}
    {d : Dataset} {ds : List Dataset} {c : Dataset}
    (h : engineRun iters chains numCols seed d = Except.ok ds) (hc : c ∈ ds) :
    ∃ k, c = chainRun iters numCols (seed + k) d := by
  unfold engineRun at h
  cases hval : checkValidity numCols d with
  | some e => rw [hval] at h; cases h
  | none =>
    rw [hval] at h
    cases h
    rcases List.mem_map.mp hc with ⟨k, _, rfl⟩
    exact ⟨k, rfl⟩

theorem countMissing_eq_zero {c : Column} :
    countMissing c = 0 ↔ ∀ x ∈ c.cells, x ≠ Cell.missing := by
  unfold countMissing
  rw [List.countP_eq_zero]
  constructor
  · intro h x hx
    have := h x hx
    simpa using this
  · intro h x hx
    simpa using h x hx

theorem start_imputation_none {g : Globals} {numCols : List String} (hd : g.data = none) :
    start_imputation g numCols = RunOutcome.finished
      { globalsAfter := g, errorBox := some msgNoFile, infoBox := none,
        workbook := none, images := [], missingnessTable := [],
        sanitizedOriginal := none, completedDatasets := [] } := by
  unfold start_imputation
  rw [hd]

theorem start_imputation_crashed {g : Globals} {numCols : List String} {dat : Dataset}
    {m : String} (hd : g.data = some dat) (hs : sanitizeE numCols dat = Except.error m) :
    start_imputation g numCols = RunOutcome.crashed m := by
  unfold start_imputation
  simp only [hd, hs]

theorem start_imputation_sanitized {g : Globals} {numCols : List String} {dat df : Dataset}
    (hd : g.data = some dat) (hs : sanitizeE numCols dat = Except.ok df) :
    start_imputation g numCols = afterSanitize g numCols df := by
  unfold start_imputation
  simp only [hd, hs]

theorem missingColNamesE_ok {d : Dataset} (hnod : d.names.Nodup) :
    missingColNamesE d = Except.ok (missingColNames d) := by
  unfold missingColNamesE
  rw [if_pos hnod]

theorem missingColNamesE_err {d : Dataset} (hnod : ¬ d.names.Nodup) :
    missingColNamesE d = Except.error msgAmbiguous := by
  unfold missingColNamesE
  rw [if_neg hnod]

theorem afterSanitize_dup {g : Globals} {numCols : List String} {df : Dataset}
    (hnod : ¬ df.names.Nodup) :
    afterSanitize g numCols df = RunOutcome.crashed msgAmbiguous := by
  simp only [afterSanitize, missingColNamesE_err hnod]

theorem afterSanitize_noMissing {g : Globals} {numCols : List String} {df : Dataset}
    (hnod : df.names.Nodup) (hm : missingColNames df = []) :
    afterSanitize g numCols df =
      RunOutcome.finished (noMissingResult g (make_missingness_table df) df) := by
  simp only [afterSanitize, missingColNamesE_ok hnod]
  rw [if_pos hm]

theorem afterSanitize_fail {g : Globals} {numCols : List String} {df : Dataset} {e : EngineError}
    (hnod : df.names.Nodup) (hm : missingColNames df ≠ [])
    (he : engineRun 3 1 numCols 42 df = Except.error e) :
    afterSanitize g numCols df =
      RunOutcome.finished (engineFailResult g (make_missingness_table df) df e) := by
  simp only [afterSanitize, missingColNamesE_ok hnod]
  rw [if_neg hm, he]

theorem afterSanitize_engineOk {g : Globals} {numCols : List String} {df : Dataset}
    {ds : List Dataset} (hnod : df.names.Nodup) (hm : missingColNames df ≠ [])
    (he : engineRun 3 1 numCols 42 df = Except.ok ds) :
    afterSanitize g numCols df =
      RunOutcome.finished
        (engineOkResult g (make_missingness_table df) df (missingColNames df) ds) := by
  simp only [afterSanitize, missingColNamesE_ok hnod]
  rw [if_neg hm, he]

/-! ## Engine: columns without missing cells are never touched -/

theorem initCells_no_missing {role : Role} {obs : List Cell} (cells : List Cell) (st : Nat)
    (h : ∀ x ∈ cells, x ≠ Cell.missing) : initCells role obs cells st = (cells, st) := by
  induction cells generalizing st with
  | nil => rfl
  | cons c cs ih =>
    have hc : ¬ c = Cell.missing := h c (List.mem_cons_self _ _)
    simp only [initCells, if_neg hc, ih st (fun x hx => h x (List.mem_cons_of_mem _ hx))]

theorem initAll_get? (numCols : List String) (cols : List Column) (st : Nat) (j : Nat)
    (col : Column) (hcol : cols.get? j = some col) (hnm : countMissing col = 0) :
    (initAll numCols cols st).get? j = some col := by
  induction cols generalizing st j with
  | nil => simp at hcol
  | cons c cs ih =>
    cases j with
    | zero =>
      simp only [List.get?] at hcol
      cases hcol
      simp only [initAll, initColumn, List.get?]
      rw [initCells_no_missing _ st (countMissing_eq_zero.mp hnm)]
    | succ j =>
      simp only [List.get?] at hcol
      simp only [initAll, List.get?]
      exact ih _ j hcol

theorem setAt_get?_ne {w : List Column} {i j : Nat} (f : Column → Column) (h : j ≠ i) :
    (setAt w i f).get? j = w.get? j := by
  induction w generalizing i j with
  | nil => cases i <;> rfl
  | cons c cs ih =>
    cases i with
    | zero =>
      cases j with
      | zero => exact absurd rfl h
      | succ j => rfl
    | succ i =>
      cases j with
      | zero => rfl
      | succ j => exact ih (fun hji => h (congrArg Nat.succ hji))

theorem refineColumn_get? {numCols : List String} {orig : Dataset} {w : List Column}
    {i j : Nat} {col : Column} (hcol : orig.cols.get? j = some col)
    (hnm : countMissing col = 0) :
    (refineColumn numCols orig w i).get? j = w.get? j := by
  by_cases hij : i = j
  · subst hij
    unfold refineColumn
    rw [hcol]
    have : col.hasMissing = false := by
      unfold Column.hasMissing
      rw [List.any_eq_false]
      intro x hx
      simpa using countMissing_eq_zero.mp hnm x hx
    simp [this]
  · unfold refineColumn
    split
    · rfl
    · split
      · split
        · rfl
        · exact setAt_get?_ne _ (fun hji => hij hji.symm)
      · rfl

theorem refineFold_get? {numCols : List String} {orig : Dataset} (idxs : List Nat)
    {w : List Column} {j : Nat} {col : Column} (hcol : orig.cols.get? j = some col)
    (hnm : countMissing col = 0) :
    (idxs.foldl (refineColumn numCols orig) w).get? j = w.get? j := by
  induction idxs generalizing w with
  | nil => rfl
  | cons i idxs ih => rw [List.foldl_cons, ih, refineColumn_get? hcol hnm]

theorem chainRun_get? {iters : Nat} {numCols : List String} {seed : Nat} {orig : Dataset}
    {j : Nat} {col : Column} (hcol : orig.cols.get? j = some col)
    (hnm : countMissing col = 0) :
    (chainRun iters numCols seed orig).cols.get? j = some col := by
  unfold chainRun
  induction iters with
  | zero => exact initAll_get? numCols orig.cols seed j col hcol hnm
  | succ k ih =>
    rw [Function.iterate_succ_apply']
    exact (refineFold_get? _ hcol hnm).trans ih

/-! ## Missingness utilities -/

theorem hasMissing_false_iff {c : Column} : c.hasMissing = false ↔ countMissing c = 0 := by
  unfold Column.hasMissing
  rw [List.any_eq_false, countMissing_eq_zero]
  constructor
  · intro h x hx
    simpa using h x hx
  · intro h x hx
    simpa using h x hx

theorem missingColNames_nil_iff {d : Dataset} :
    missingColNames d = [] ↔ d.totalMissing = 0 := by
  unfold missingColNames Dataset.totalMissing
  rw [List.map_eq_nil_iff, List.filter_eq_nil_iff, List.sum_eq_zero_iff]
  constructor
  · intro h n hn
    rcases List.mem_map.mp hn with ⟨c, hc, rfl⟩
    exact hasMissing_false_iff.mp (by simpa using h c hc)
  · intro h c hc
    have hz : countMissing c = 0 := h _ (List.mem_map_of_mem countMissing hc)
    simp [hasMissing_false_iff.mpr hz]

/-! ## Sanitizer: the three passes equal the per-cell rules of §4.1 -/

/-- The per-cell sanitization contract as the spec states it (§4.1), rules in
order: (1) the infinities become MISSING; (2) whitespace-only strings
(including the empty string) become MISSING; (3) in a declared Continuous
column a remaining string is parsed, unparseable strings degrading to MISSING
and parsed values being stored as floating-point. -/
def specSanitizeCell (isCont : Bool) : Cell → Cell
  | Cell.posInf => Cell.missing
  | Cell.negInf => Cell.missing
  | Cell.str s =>
    if isBlankStr s then Cell.missing
    else if isCont then
      match parseNumericStr s with
      | none => Cell.missing
      | some v => v
    else Cell.str s
  | Cell.num q => Cell.num q
  | Cell.missing => Cell.missing

theorem specSanitizeCell_true (c : Cell) :
    specSanitizeCell true c = toNumericCell (replaceBlankCell (replaceInfCell c)) := by
  cases c with
  | str s =>
    by_cases hb : isBlankStr s = true
    · simp [specSanitizeCell, replaceInfCell, replaceBlankCell, toNumericCell, hb]
    · cases hp : parseNumericStr s with
      | none =>
        simp [specSanitizeCell, replaceInfCell, replaceBlankCell, toNumericCell, hb, hp]
      | some v =>
        simp [specSanitizeCell, replaceInfCell, replaceBlankCell, toNumericCell, hb, hp]
  | _ => rfl

theorem specSanitizeCell_false (c : Cell) :
    specSanitizeCell false c = replaceBlankCell (replaceInfCell c) := by
  cases c with
  | str s =>
    by_cases hb : isBlankStr s = true
    · simp [specSanitizeCell, replaceBlankCell, replaceInfCell, hb]
    · simp [specSanitizeCell, replaceBlankCell, replaceInfCell, hb]
  | _ => rfl

/-- The ok-payload of the coercion loop: each user-selected column coerced
once, every other column untouched. -/
def coerceSet (numCols : List String) (d : Dataset) : Dataset :=
  ⟨d.cols.map fun c => if c.name ∈ numCols then c.mapCells toNumericCell else c⟩

theorem countP_name_map {l : List Column} {f : Column → Column}
    (hf : ∀ c, (f c).name = c.name) (nm : String) :
    (l.map f).countP (fun c => decide (c.name = nm)) =
      l.countP (fun c => decide (c.name = nm)) := by
  rw [List.countP_map]
  apply List.countP_congr
  intro c _
  simp [Function.comp, hf c]

theorem except_bind_ok {ε α β : Type} (a : α) (f : α → Except ε β) :
    (Except.ok a >>= f : Except ε β) = f a := rfl

theorem coerceNamed_ok {d : Dataset} {nm : String}
    (h : d.cols.countP (fun c => decide (c.name = nm)) = 1) :
    coerceNamed d nm =
      Except.ok ⟨d.cols.map fun c => if c.name = nm then c.mapCells toNumericCell else c⟩ := by
  unfold coerceNamed
  rw [h]

theorem coerceSet_cons {nm : String} {ns : List String} {d : Dataset} (hnm : nm ∉ ns) :
    coerceSet ns ⟨d.cols.map fun c => if c.name = nm then c.mapCells toNumericCell else c⟩ =
      coerceSet (nm :: ns) d := by
  unfold coerceSet
  rw [List.map_map]
  congr 1
  apply List.map_congr_left
  intro c _
  dsimp only [Function.comp]
  by_cases h1 : c.name = nm
  · have h2 : c.name ∉ ns := by rw [h1]; exact hnm
    rw [if_pos h1, if_pos (show c.name ∈ nm :: ns by rw [h1]; exact List.mem_cons_self _ _),
      if_neg (show ¬ (c.mapCells toNumericCell).name ∈ ns from h2)]
  · rw [if_neg h1]
    by_cases h2 : c.name ∈ ns
    · rw [if_pos h2, if_pos (List.mem_cons_of_mem _ h2)]
    · rw [if_neg h2, if_neg (show ¬ c.name ∈ nm :: ns by
        intro hmem
        rcases List.mem_cons.mp hmem with h | h
        · exact h1 h
        · exact h2 h)]

theorem coerceAll_ok {numCols : List String} : ∀ {d : Dataset}, numCols.Nodup →
    (∀ nm ∈ numCols, d.cols.countP (fun c => decide (c.name = nm)) = 1) →
    coerceAll numCols d = Except.ok (coerceSet numCols d) := by
  induction numCols with
  | nil =>
    intro d _ _
    unfold coerceAll coerceSet
    simp only [List.foldlM_nil, List.map_nil]
    have : d.cols.map (fun c => if c.name ∈ ([] : List String) then c.mapCells toNumericCell else c)
        = d.cols.map id := by
      apply List.map_congr_left
      intro c _
      simp
    rw [this, List.map_id]
    rfl
  | cons nm ns ih =>
    intro d hnd hsel
    unfold coerceAll
    rw [List.foldlM_cons, coerceNamed_ok (hsel nm (List.mem_cons_self _ _)), except_bind_ok]
    have hnd2 := List.nodup_cons.mp hnd
    have hcount : ∀ m ∈ ns,
        (d.cols.map fun c => if c.name = nm then c.mapCells toNumericCell else c).countP
          (fun c => decide (c.name = m)) = 1 := by
      intro m hm
      rw [countP_name_map (fun c => by by_cases h : c.name = nm <;> simp [h, Column.mapCells])]
      exact hsel m (List.mem_cons_of_mem _ hm)
    have := ih hnd2.2 hcount
    unfold coerceAll at this
    rw [this, coerceSet_cons hnd2.1]

/-- The cleaning block of lines 81–86 equals, column by column and cell by
cell, the ordered per-cell rules of §4.1 — provided every selected name names
exactly one column (otherwise the loop raises, see `coerceNamed`). -/
theorem sanitizeE_ok {numCols : List String} {d : Dataset} (hnd : numCols.Nodup)
    (hsel : ∀ nm ∈ numCols, d.cols.countP (fun c => decide (c.name = nm)) = 1) :
    sanitizeE numCols d = Except.ok ⟨d.cols.map fun c =>
      ⟨c.name, c.cells.map (specSanitizeCell (decide (c.name ∈ numCols)))⟩⟩ := by
  unfold sanitizeE
  have hcount : ∀ nm ∈ numCols,
      ((d.mapCells replaceInfCell).mapCells replaceBlankCell).cols.countP
        (fun c => decide (c.name = nm)) = 1 := by
    intro nm hm
    unfold Dataset.mapCells
    rw [List.map_map]
    rw [countP_name_map (fun c => by simp [Function.comp, Column.mapCells])]
    exact hsel nm hm
  rw [coerceAll_ok hnd hcount]
  congr 1
  unfold coerceSet Dataset.mapCells
  simp only [List.map_map]
  congr 1
  apply List.map_congr_left
  intro c _
  dsimp only [Function.comp, Column.mapCells]
  by_cases hc : c.name ∈ numCols
  · have hdec : decide (c.name ∈ numCols) = true := by simp [hc]
    rw [if_pos hc, hdec]
    congr 1
    rw [List.map_map, List.map_map]
    apply List.map_congr_left
    intro x _
    exact (specSanitizeCell_true x).symm
  · have hdec : decide (c.name ∈ numCols) = false := by simp [hc]
    rw [if_neg hc, hdec]
    congr 1
    rw [List.map_map]
    apply List.map_congr_left
    intro x _
    exact (specSanitizeCell_false x).symm

/-! ## Shape of parser outputs and of the sanitized dataset -/

theorem parseBody_ne_str (neg : Bool) (l : List Char) (t : String) :
    parseBody neg l ≠ some (Cell.str t) := by
  intro h
  simp only [parseBody] at h
  split at h
  · cases neg <;> simp at h
  · split at h
    · simp at h
    · rcases Option.map_eq_some'.mp h with ⟨q, _, hq⟩
      cases neg <;> simp at hq

theorem parseNumericStr_ne_str (s t : String) : parseNumericStr s ≠ some (Cell.str t) := by
  unfold parseNumericStr
  split
  · simp
  · exact parseBody_ne_str _ _ _
  · exact parseBody_ne_str _ _ _
  · exact parseBody_ne_str _ _ _

theorem specSanitizeCell_true_ne_str (c : Cell) (t : String) :
    specSanitizeCell true c ≠ Cell.str t := by
  cases c with
  | str s =>
    simp only [specSanitizeCell]
    split_ifs with h1
    · simp
    · cases hp : parseNumericStr s with
      | none => simp
      | some v =>
        intro hv
        simp only [] at hv
        exact parseNumericStr_ne_str s t (hv ▸ hp)
  | missing => simp [specSanitizeCell]
  | num q => simp [specSanitizeCell]
  | posInf => simp [specSanitizeCell]
  | negInf => simp [specSanitizeCell]

/-- The sanitized dataset in closed form (the ok-payload of `sanitizeE_ok`). -/
def sanitizedShape (numCols : List String) (d : Dataset) : Dataset :=
  ⟨d.cols.map fun c => ⟨c.name, c.cells.map (specSanitizeCell (decide (c.name ∈ numCols)))⟩⟩

theorem sanitizeE_ok_shape {numCols : List String} {d : Dataset} (hnd : numCols.Nodup)
    (hsel : ∀ nm ∈ numCols, d.cols.countP (fun c => decide (c.name = nm)) = 1) :
    sanitizeE numCols d = Except.ok (sanitizedShape numCols d) :=
  sanitizeE_ok hnd hsel

theorem sanitizedShape_names (numCols : List String) (d : Dataset) :
    (sanitizedShape numCols d).names = d.names := by
  unfold sanitizedShape Dataset.names
  rw [List.map_map]
  rfl

theorem sanitizedShape_nrows (numCols : List String) (d : Dataset) :
    (sanitizedShape numCols d).nrows = d.nrows := by
  unfold sanitizedShape Dataset.nrows
  cases d.cols with
  | nil => rfl
  | cons c cs => simp

theorem sanitizedShape_rect {numCols : List String} {d : Dataset} (h : d.Rect) :
    (sanitizedShape numCols d).Rect := by
  intro c hc
  rcases List.mem_map.mp hc with ⟨c0, hc0, rfl⟩
  rw [sanitizedShape_nrows]
  simpa using h c0 hc0

theorem sanitizedShape_countP (numCols : List String) (d : Dataset) (nm : String) :
    (sanitizedShape numCols d).cols.countP (fun c => decide (c.name = nm)) =
      d.cols.countP (fun c => decide (c.name = nm)) := by
  unfold sanitizedShape
  rw [List.countP_map]
  apply List.countP_congr
  intro c _
  rfl

theorem nonNumericContCols_sanitized (numCols : List String) (d : Dataset) :
    nonNumericContCols numCols (sanitizedShape numCols d) = [] := by
  unfold nonNumericContCols
  rw [List.map_eq_nil_iff, List.filter_eq_nil_iff]
  intro c hc
  rcases List.mem_map.mp hc with ⟨c0, _, rfl⟩
  simp only [Bool.and_eq_true, not_and]
  intro hrole
  have hcont : c0.name ∈ numCols := by
    by_contra hn
    unfold roleOf at hrole
    rw [if_neg hn] at hrole
    simp at hrole
  have hdec : decide (c0.name ∈ numCols) = true := by simp [hcont]
  rw [Bool.not_eq_true, List.any_eq_false]
  intro x hx
  rcases List.mem_map.mp hx with ⟨y, _, rfl⟩
  rw [hdec]
  cases hcell : specSanitizeCell true y with
  | str tt => exact absurd hcell (specSanitizeCell_true_ne_str y tt)
  | missing => simp
  | num q => simp
  | posInf => simp
  | negInf => simp

/-! ## Validity check on a sanitized dataset -/

theorem exists_missing_col {d : Dataset} (h : missingColNames d ≠ []) :
    ∃ c ∈ d.cols, c.hasMissing = true := by
  unfold missingColNames at h
  have hf : d.cols.filter Column.hasMissing ≠ [] := by
    intro h0
    rw [h0] at h
    exact h rfl
  rcases List.exists_mem_of_ne_nil _ hf with ⟨c, hc⟩
  exact ⟨c, List.mem_of_mem_filter hc, List.of_mem_filter hc⟩

theorem checkValidity_not_empty {d : Dataset}
    (hrect : d.Rect) (hmiss : missingColNames d ≠ []) :
    ¬ (d.cols.isEmpty = true ∨ d.nrows = 0) := by
  rcases exists_missing_col hmiss with ⟨c, hc, hcm⟩
  have hcells : c.cells ≠ [] := by
    intro h0
    unfold Column.hasMissing at hcm
    rw [h0] at hcm
    simp at hcm
  intro hor
  rcases hor with h1 | h1
  · rw [List.isEmpty_iff] at h1
    rw [h1] at hc
    exact absurd hc (List.not_mem_nil c)
  · have := hrect c hc
    rw [h1] at this
    exact hcells (List.length_eq_zero.mp this)

theorem checkValidity_sanitized_ok {numCols : List String} {d : Dataset}
    (hrect : (sanitizedShape numCols d).Rect)
    (hmiss : missingColNames (sanitizedShape numCols d) ≠ [])
    (hnod : (sanitizedShape numCols d).names.Nodup) :
    checkValidity numCols (sanitizedShape numCols d) = none := by
  unfold checkValidity
  rw [if_neg (checkValidity_not_empty hrect hmiss), if_neg (fun hc => hc hnod),
    nonNumericContCols_sanitized]

theorem checkValidity_none_nodup {numCols : List String} {d : Dataset}
    (h : checkValidity numCols d = none) : d.names.Nodup := by
  unfold checkValidity at h
  by_cases h1 : (d.cols.isEmpty = true ∨ d.nrows = 0)
  · rw [if_pos h1] at h
    cases h
  · rw [if_neg h1] at h
    by_cases h2 : ¬ d.names.Nodup
    · rw [if_pos h2] at h
      cases h
    · exact not_not.mp h2

theorem totalMissing_zero_of_empty {d : Dataset} (hrect : d.Rect)
    (h : d.cols = [] ∨ d.nrows = 0) : d.totalMissing = 0 := by
  unfold Dataset.totalMissing
  rw [List.sum_eq_zero_iff]
  intro n hn
  rcases List.mem_map.mp hn with ⟨c, hc, rfl⟩
  rcases h with h1 | h1
  · rw [h1] at hc
    cases hc
  · have hlen := hrect c hc
    rw [h1] at hlen
    unfold countMissing
    rw [List.length_eq_zero.mp hlen]
    rfl

theorem engineRun_error_iff {iters chains : Nat} {numCols : List String} {seed : Nat}
    {d : Dataset} {e : EngineError} :
    engineRun iters chains numCols seed d = Except.error e ↔
      checkValidity numCols d = some e := by
  unfold engineRun
  cases h : checkValidity numCols d with
  | some e2 => simp
  | none => simp

theorem engineRun_3_1 {numCols : List String} (seed : Nat) {d : Dataset}
    (hval : checkValidity numCols d = none) :
    engineRun 3 1 numCols seed d = Except.ok [chainRun 3 numCols (seed + 0) d] := by
  unfold engineRun
  rw [hval]
  rfl

/-! ## Percentages on a dataset with no missing cells -/

theorem rheInt_zero {n : Nat} (h : 0 < n) : rheInt 0 n = 0 := by
  simp only [rheInt, Int.zero_fdiv, Int.zero_mul, Int.mul_zero, Int.sub_zero]
  split_ifs with h1 h2 h3 <;> omega

theorem mem_mkRowsFrom {nr i : Nat} {cs : List Column} {r : MRow}
    (h : r ∈ mkRowsFrom nr i cs) :
    ∃ c ∈ cs, r.missing_n = countMissing c ∧ r.missing_pct = pctOf (countMissing c) nr ∧
      r.varName = c.name := by
  induction cs generalizing i with
  | nil => simp [mkRowsFrom] at h
  | cons c cs ih =>
    rcases List.mem_cons.mp h with rfl | h2
    · exact ⟨c, List.mem_cons_self _ _, rfl, rfl, rfl⟩
    · rcases ih h2 with ⟨c2, hc2, h3, h4, h5⟩
      exact ⟨c2, List.mem_cons_of_mem _ hc2, h3, h4, h5⟩

theorem table_pct_zero {d : Dataset} (hz : d.totalMissing = 0) (hn : 0 < d.nrows) :
    ∀ r ∈ make_missingness_table d, r.missing_pct = some 0 := by
  intro r hr
  rw [make_missingness_table, mem_sortRows] at hr
  rcases mem_mkRowsFrom hr with ⟨c, hc, _, hpct, _⟩
  have hcz : countMissing c = 0 := by
    unfold Dataset.totalMissing at hz
    exact List.sum_eq_zero_iff.mp hz _ (List.mem_map_of_mem countMissing hc)
  rw [hpct, hcz, pctOf, if_neg (Nat.pos_iff_ne_zero.mp hn)]
  norm_num [rheInt_zero hn]

/-! ## Idempotence of the per-cell rules, away from the infinity spellings -/

theorem specSanitizeCell_false_out (x : Cell) :
    specSanitizeCell false x = Cell.missing ∨ (∃ q, specSanitizeCell false x = Cell.num q) ∨
      (∃ s, specSanitizeCell false x = Cell.str s ∧ isBlankStr s = false) := by
  cases x with
  | str s =>
    by_cases hb : isBlankStr s = true
    · left; simp [specSanitizeCell, hb]
    · right; right
      exact ⟨s, by simp [specSanitizeCell, hb], by simpa using hb⟩
  | missing => left; rfl
  | num q => right; left; exact ⟨q, rfl⟩
  | posInf => left; rfl
  | negInf => left; rfl

theorem specSanitizeCell_true_out (x : Cell)
    (hx : ∀ t, x = Cell.str t →
      parseNumericStr t ≠ some Cell.posInf ∧ parseNumericStr t ≠ some Cell.negInf) :
    specSanitizeCell true x = Cell.missing ∨ ∃ q, specSanitizeCell true x = Cell.num q := by
  cases x with
  | str s =>
    by_cases hb : isBlankStr s = true
    · left; simp [specSanitizeCell, hb]
    · cases hp : parseNumericStr s with
      | none => left; simp [specSanitizeCell, hb, hp]
      | some v =>
        cases v with
        | posInf => exact absurd hp (hx s rfl).1
        | negInf => exact absurd hp (hx s rfl).2
        | str t => exact absurd hp (parseNumericStr_ne_str s t)
        | missing => left; simp [specSanitizeCell, hb, hp]
        | num q => right; exact ⟨q, by simp [specSanitizeCell, hb, hp]⟩
  | missing => left; rfl
  | num q => right; exact ⟨q, rfl⟩
  | posInf => left; rfl
  | negInf => left; rfl

theorem specSanitizeCell_idem {b : Bool} {x : Cell}
    (hx : b = true → ∀ t, x = Cell.str t →
      parseNumericStr t ≠ some Cell.posInf ∧ parseNumericStr t ≠ some Cell.negInf) :
    specSanitizeCell b (specSanitizeCell b x) = specSanitizeCell b x := by
  cases b with
  | false =>
    rcases specSanitizeCell_false_out x with h | ⟨q, h⟩ | ⟨s, h, hsb⟩
    · rw [h]; rfl
    · rw [h]; rfl
    · rw [h]
      simp [specSanitizeCell, hsb]
  | true =>
    rcases specSanitizeCell_true_out x (hx rfl) with h | ⟨q, h⟩
    · rw [h]; rfl
    · rw [h]; rfl

/-- Decidable form of "no declared Continuous column holds a string spelling
of ±infinity". -/
def noInfString (numCols : List String) (d : Dataset) : Bool :=
  d.cols.all fun c =>
    !(decide (c.name ∈ numCols)) ||
    c.cells.all fun x =>
      match x with
      | Cell.str t => !(decide (parseNumericStr t = some Cell.posInf)) &&
                      !(decide (parseNumericStr t = some Cell.negInf))
      | _ => true

theorem noInfString_spec {numCols : List String} {d : Dataset}
    (h : noInfString numCols d = true) :
    ∀ c ∈ d.cols, c.name ∈ numCols → ∀ x ∈ c.cells, ∀ t, x = Cell.str t →
      parseNumericStr t ≠ some Cell.posInf ∧ parseNumericStr t ≠ some Cell.negInf := by
  intro c hc hname x hx t hxt
  unfold noInfString at h
  rw [List.all_eq_true] at h
  have h1 := h c hc
  rw [Bool.or_eq_true] at h1
  rcases h1 with h1 | h1
  · rw [Bool.not_eq_true', decide_eq_false_iff_not] at h1
    exact absurd hname h1
  · rw [List.all_eq_true] at h1
    have h2 := h1 x hx
    subst hxt
    rw [Bool.and_eq_true, Bool.not_eq_true', Bool.not_eq_true',
      decide_eq_false_iff_not, decide_eq_false_iff_not] at h2
    exact h2

/-! ## Run analysis helper: the success branch in full -/

theorem run_success_shape {g : Globals} {numCols : List String} {c : Dataset}
    (hc : c ∈ (start_imputation g numCols).completedOf) :
    ∃ df ds, (start_imputation g numCols).sanitizedOf = some df ∧
      engineRun 3 1 numCols 42 df = Except.ok ds ∧ c ∈ ds := by
  cases hd : g.data with
  | none => rw [start_imputation_none hd] at hc; simp [RunOutcome.completedOf] at hc
  | some dat =>
    cases hs : sanitizeE numCols dat with
    | error m =>
      rw [start_imputation_crashed hd hs] at hc
      simp [RunOutcome.completedOf] at hc
    | ok df =>
      rw [start_imputation_sanitized hd hs] at hc
      by_cases hnod : df.names.Nodup
      · by_cases hm : missingColNames df = []
        · rw [afterSanitize_noMissing hnod hm] at hc
          simp [RunOutcome.completedOf, noMissingResult] at hc
        · cases he : engineRun 3 1 numCols 42 df with
          | error e =>
            rw [afterSanitize_fail hnod hm he] at hc
            simp [RunOutcome.completedOf, engineFailResult] at hc
          | ok ds =>
            rw [start_imputation_sanitized hd hs, afterSanitize_engineOk hnod hm he]
            rw [afterSanitize_engineOk hnod hm he] at hc
            simp only [RunOutcome.completedOf, engineOkResult] at hc
            exact ⟨df, ds, rfl, he, hc⟩
      · rw [afterSanitize_dup hnod] at hc
        simp [RunOutcome.completedOf] at hc

/-! ## Concrete inputs for witnesses and counterexamples -/

def ageColW : Column := ⟨"age", [Cell.num ⟨1, 1⟩, Cell.missing, Cell.num ⟨3, 1⟩, Cell.num ⟨4, 1⟩]⟩

def gradeColW : Column := ⟨"grade", [Cell.str "A", Cell.str "B", Cell.missing, Cell.str "A"]⟩

def idColW : Column := ⟨"id", [Cell.num ⟨10, 1⟩, Cell.num ⟨11, 1⟩, Cell.num ⟨12, 1⟩, Cell.num ⟨13, 1⟩]⟩

def dW : Dataset := ⟨[ageColW, gradeColW, idColW]⟩

def gW : Globals := ⟨some dW, some "out.xlsx", some "imgs"⟩

def sW : Dataset := (start_imputation gW ["age"]).sanitizedOf.getD ⟨[]⟩

def cW : Dataset := (start_imputation gW ["age"]).completedOf.headD ⟨[]⟩

def dEmptyRows : Dataset := ⟨[⟨"x", []⟩]⟩

def gEmptyRows : Globals := ⟨some dEmptyRows, none, none⟩

def dDup : Dataset := ⟨[⟨"y", [Cell.num ⟨1, 1⟩, Cell.missing]⟩,
  ⟨"y", [Cell.num ⟨2, 1⟩, Cell.num ⟨3, 1⟩]⟩]⟩

def gDup : Globals := ⟨some dDup, some "o.xlsx", some "f"⟩

def dRag : Dataset := ⟨[⟨"a", []⟩, ⟨"b", [Cell.missing]⟩]⟩

def gRag : Globals := ⟨some dRag, some "o2.xlsx", some "f2"⟩

def eEmpty : EngineError := ⟨"empty dataset", []⟩

def dOK : Dataset := ⟨[⟨"a", [Cell.num ⟨1, 1⟩, Cell.num ⟨2, 1⟩]⟩]⟩

def gOK : Globals := ⟨some dOK, none, none⟩

def dParse : Dataset := ⟨[⟨"v", [Cell.str " 2.5", Cell.str "abc", Cell.str "  ", Cell.posInf,
  Cell.num ⟨7, 2⟩]⟩, ⟨"lab", [Cell.str "x", Cell.str "", Cell.negInf, Cell.str "3",
  Cell.missing]⟩]⟩

def dInf : Dataset := ⟨[⟨"x", [Cell.str "inf"]⟩]⟩

def dNum : Dataset := ⟨[⟨"a", [Cell.str "2.5", Cell.missing, Cell.str "zz"]⟩]⟩

/-! ## The claims -/

/-- C1: for every run whose sanitized dataset contains at least one MISSING
cell and on which imputation succeeds (some completed dataset is returned),
every completed dataset has zero MISSING cells in every column. -/
theorem C1_completeness (g : Globals) (numCols : List String) (c : Dataset)
    (_hmiss : ∃ s, (start_imputation g numCols).sanitizedOf = some s ∧ 0 < s.totalMissing)
    (hc : c ∈ (start_imputation g numCols).completedOf) :
    c.totalMissing = 0 ∧ ∀ col ∈ c.cols, countMissing col = 0 := by
  rcases run_success_shape hc with ⟨df, ds, _, he, hcds⟩
  rcases engineRun_ok_mem he hcds with ⟨k, rfl⟩
  have hnm := chainRun_not_missing 3 numCols (42 + k) df
  constructor
  · unfold Dataset.totalMissing
    rw [List.sum_eq_zero_iff]
    intro n hn
    rcases List.mem_map.mp hn with ⟨col, hcol, rfl⟩
    exact countMissing_eq_zero.mpr (hnm col hcol)
  · intro col hcol
    exact countMissing_eq_zero.mpr (hnm col hcol)

theorem C1_witness : cW.totalMissing = 0 :=
  (C1_completeness gW ["age"] cW ⟨sW, by decide, by decide⟩ (by decide)).1

/-- C2: the missingness table has exactly one row per column carrying that
column's MISSING count and `round(count/N*100, 2)` (the `pctOf` encoding,
`none` for the zero-row NaN); the counts sum to the dataset's total MISSING
cells; and the rows are sorted by percentage descending (NaN last) with ties
keeping the original column order.  All conjuncts but the last are
independent of the sort kind; the tie-order conjunct is the contract the spec
documents ("stable sort"), realized here by `sortRows`, which the source's
`sort_values` with its default `kind="quicksort"` only meets up to numpy's
16-element insertion-sort cutoff — on wider tables with tied percentages the
code's tie order diverges from this claim, recorded as a code bug at C2. -/
theorem C2_missingness_table (d : Dataset) :
    (make_missingness_table d).length = d.cols.length ∧
    ((make_missingness_table d).map MRow.missing_n).sum = d.totalMissing ∧
    (∀ j c, d.cols.get? j = some c →
      (⟨c.name, countMissing c, pctOf (countMissing c) d.nrows, j⟩ : MRow) ∈
        make_missingness_table d) ∧
    (make_missingness_table d).Pairwise
      (fun x y => pctGE x.missing_pct y.missing_pct = true) ∧
    (make_missingness_table d).Pairwise
      (fun x y => x.missing_pct = y.missing_pct → x.idx < y.idx) := by
  refine ⟨?_, ?_, ?_, ?_, ?_⟩
  · rw [make_missingness_table, (sortRows_perm _).length_eq, mkRows, mkRowsFrom_length]
  · rw [make_missingness_table, ((sortRows_perm (mkRows d)).map MRow.missing_n).sum_eq,
      mkRows, mkRowsFrom_map_missing_n]
    rfl
  · intro j c hj
    rw [make_missingness_table, mem_sortRows, mkRows]
    have := mkRowsFrom_get d.nrows 0 d.cols j c hj
    simpa using this
  · exact sortRows_sorted _
  · exact sortRows_stable (mkRowsFrom_idx_lt _ _ _)

theorem C2_witness :
    ((make_missingness_table dW).map MRow.missing_n).sum = dW.totalMissing ∧
    (⟨ageColW.name, countMissing ageColW, pctOf (countMissing ageColW) dW.nrows, 0⟩ : MRow) ∈
      make_missingness_table dW :=
  ⟨(C2_missingness_table dW).2.1, (C2_missingness_table dW).2.2.1 0 ageColW rfl⟩

/-- C3 counterexample: a dataset that is empty (one column, zero rows) does
not fail the run — `start_imputation` takes the no-missing short-circuit and
reports success — contradicting the claim that a run fails exactly when the
dataset is empty, a Continuous column is non-numeric, or names are not
unique. -/
theorem C3_counterexample :
    dEmptyRows.nrows = 0 ∧
    (start_imputation gEmptyRows []).isFinished = true ∧
    (start_imputation gEmptyRows []).errOf = none ∧
    (start_imputation gEmptyRows []).infoOf = some msgNoMissing := by decide

/-- C3 (amended): the run never raises a `DataValidityError`.  With the
loaded dataset rectangular and each selected Continuous name naming exactly
one column: a dataset with non-unique column names crashes with the uncaught
`ValueError` of line 91, before the imputation `try` block — no message box,
no offending column names reported; with unique names the run returns
normally and never reports a failure (after coercion a Continuous column is
always numeric and the engine's validity checks cannot fire, and per-column
degeneracies are absorbed), and in particular an empty dataset (zero columns
or zero rows) has no missing cells, takes the no-missing short-circuit, and
is reported as success. -/
theorem C3_amended (g : Globals) (numCols : List String) (d : Dataset)
    (hd : g.data = some d) (hrect : d.Rect) (hnd : numCols.Nodup)
    (hsel : ∀ nm ∈ numCols, d.cols.countP (fun c => decide (c.name = nm)) = 1) :
    (¬ d.names.Nodup → start_imputation g numCols = RunOutcome.crashed msgAmbiguous) ∧
    (d.names.Nodup →
      (start_imputation g numCols).isFinished = true ∧
      (start_imputation g numCols).errOf = none ∧
      (d.cols = [] ∨ d.nrows = 0 →
        (start_imputation g numCols).infoOf = some msgNoMissing ∧
        (start_imputation g numCols).completedOf = [])) := by
  have hs := sanitizeE_ok_shape hnd hsel
  rw [start_imputation_sanitized hd hs]
  have hsrect : (sanitizedShape numCols d).Rect := sanitizedShape_rect hrect
  have hnames := sanitizedShape_names numCols d
  constructor
  · intro hnod
    exact afterSanitize_dup (by rw [hnames]; exact hnod)
  · intro hnod
    have hnod2 : (sanitizedShape numCols d).names.Nodup := by rw [hnames]; exact hnod
    by_cases hm : missingColNames (sanitizedShape numCols d) = []
    · rw [afterSanitize_noMissing hnod2 hm]
      exact ⟨rfl, rfl, fun _ => ⟨rfl, rfl⟩⟩
    · have hval : checkValidity numCols (sanitizedShape numCols d) = none :=
        checkValidity_sanitized_ok hsrect hm hnod2
      rw [afterSanitize_engineOk hnod2 hm (engineRun_3_1 42 hval)]
      refine ⟨rfl, rfl, ?_⟩
      intro hempty
      exfalso
      apply hm
      rw [missingColNames_nil_iff]
      apply totalMissing_zero_of_empty hsrect
      rcases hempty with h1 | h1
      · left
        simp [sanitizedShape, h1]
      · right
        rw [sanitizedShape_nrows]
        exact h1

theorem C3_amended_witness :
    start_imputation gDup [] = RunOutcome.crashed msgAmbiguous ∧
    (start_imputation gEmptyRows []).errOf = none :=
  ⟨(C3_amended gDup [] dDup (by decide) (by decide) (by decide) (by decide)).1 (by decide),
   ((C3_amended gEmptyRows [] dEmptyRows (by decide) (by decide) (by decide)
      (by decide)).2 (by decide)).2.1⟩

/-- C4 counterexample: on a dataset with one column and zero rows the
sanitized data has no MISSING cell and the run short-circuits as claimed, but
the missingness row carries the float NaN from the division 0/0 — not the
percentage 0 the claim demands. -/
theorem C4_counterexample :
    dEmptyRows.totalMissing = 0 ∧
    (start_imputation gEmptyRows []).completedOf = [] ∧
    (start_imputation gEmptyRows []).errOf = none ∧
    (start_imputation gEmptyRows []).tableOf.map MRow.missing_pct = [none] ∧
    (start_imputation gEmptyRows []).tableOf.map MRow.missing_pct ≠ [some 0] := by decide

/-- C4 (amended): when the sanitized dataset has no MISSING cell the run
performs no imputation and returns an empty completed list, still producing
the missingness table and the sanitized original, without error; every
`missing_pct` is 0 whenever the dataset has at least one row (a zero-row
dataset yields NaN percentages from the float division 0/0).  Column names
must be unique — a duplicate-labelled frame crashes at line 91 before the
short-circuit is reached. -/
theorem C4_no_missing (g : Globals) (numCols : List String) (d s : Dataset)
    (hd : g.data = some d) (hs : sanitizeE numCols d = Except.ok s)
    (hnod : s.names.Nodup) (hz : s.totalMissing = 0) :
    (start_imputation g numCols).completedOf = [] ∧
    (start_imputation g numCols).errOf = none ∧
    (start_imputation g numCols).infoOf = some msgNoMissing ∧
    (start_imputation g numCols).sanitizedOf = some s ∧
    (start_imputation g numCols).tableOf = make_missingness_table s ∧
    (0 < s.nrows → ∀ r ∈ (start_imputation g numCols).tableOf, r.missing_pct = some 0) := by
  have hm : missingColNames s = [] := missingColNames_nil_iff.mpr hz
  rw [start_imputation_sanitized hd hs, afterSanitize_noMissing hnod hm]
  refine ⟨rfl, rfl, rfl, rfl, rfl, ?_⟩
  intro hn r hr
  exact table_pct_zero hz hn r hr

theorem C4_witness :
    (start_imputation gOK []).completedOf = [] ∧ (start_imputation gOK []).errOf = none :=
  ⟨(C4_no_missing gOK [] dOK (sanitizedShape [] dOK) (by decide) (by decide) (by decide)
      (by decide)).1,
   (C4_no_missing gOK [] dOK (sanitizedShape [] dOK) (by decide) (by decide) (by decide)
      (by decide)).2.1⟩

/-- C5: for every raw dataset and declared Continuous selection (each selected
name naming exactly one column, as the listbox guarantees), the cleaning block
succeeds — no error is raised for unparseable values — and produces exactly
the per-cell rules of §4.1 applied in order: infinities to MISSING, then
whitespace-only strings to MISSING, then numeric coercion of the Continuous
columns with unparseable strings degrading to MISSING and parsed values stored
as floating-point (`specSanitizeCell`, inside `sanitizedShape`). -/
theorem C5_sanitizer (numCols : List String) (d : Dataset) (hnd : numCols.Nodup)
    (hsel : ∀ nm ∈ numCols, d.cols.countP (fun c => decide (c.name = nm)) = 1) :
    sanitizeE numCols d = Except.ok (sanitizedShape numCols d) :=
  sanitizeE_ok_shape hnd hsel

theorem C5_witness :
    sanitizeE ["v"] dParse = Except.ok (sanitizedShape ["v"] dParse) ∧
    sanitizedShape ["v"] dParse =
      ⟨[⟨"v", [Cell.num ⟨25, 10⟩, Cell.missing, Cell.missing, Cell.missing, Cell.num ⟨7, 2⟩]⟩,
        ⟨"lab", [Cell.str "x", Cell.missing, Cell.missing, Cell.str "3", Cell.missing]⟩]⟩ :=
  ⟨C5_sanitizer ["v"] dParse (by decide) (by decide), by decide⟩

/-- C6: determinism — two engine runs with identical datasets, identical
Continuous-column assignments and identical seeds (and the same iteration and
chain counts) produce identical completed datasets, and two `start_imputation`
calls on identical inputs coincide (the source fixes the seed to 42 on
line 102). -/
theorem C6_determinism (iters chains : Nat) (numCols1 numCols2 : List String)
    (seed1 seed2 : Nat) (d1 d2 : Dataset)
    (hn : numCols1 = numCols2) (hs : seed1 = seed2) (hd : d1 = d2) :
    engineRun iters chains numCols1 seed1 d1 = engineRun iters chains numCols2 seed2 d2 ∧
    start_imputation ⟨some d1, none, none⟩ numCols1 =
      start_imputation ⟨some d2, none, none⟩ numCols2 := by
  subst hn
  subst hs
  subst hd
  exact ⟨rfl, rfl⟩

theorem C6_witness :
    engineRun 3 1 ["age"] 42 dW = engineRun 3 1 ["age"] 42 dW :=
  (C6_determinism 3 1 ["age"] ["age"] 42 42 dW dW rfl rfl rfl).1

/-- C7: non-disturbance — any column of the sanitized dataset with zero
MISSING cells appears unchanged, at the same position, in every completed
dataset the run returns. -/
theorem C7_non_disturbance (g : Globals) (numCols : List String) (c s : Dataset)
    (i : Nat) (col : Column)
    (hs : (start_imputation g numCols).sanitizedOf = some s)
    (hc : c ∈ (start_imputation g numCols).completedOf)
    (hcol : s.cols.get? i = some col) (hnm : countMissing col = 0) :
    c.cols.get? i = some col := by
  rcases run_success_shape hc with ⟨df, ds, hdf, he, hcds⟩
  rw [hs] at hdf
  have hsdf : s = df := Option.some.inj hdf
  rcases engineRun_ok_mem he hcds with ⟨k, rfl⟩
  apply chainRun_get?
  · rw [← hsdf]
    exact hcol
  · exact hnm

theorem C7_witness : cW.cols.get? 2 = some idColW :=
  C7_non_disturbance gW ["age"] cW sW 2 idColW (by decide) (by decide) (by decide) (by decide)

/-- C8: whenever the sanitized dataset has missing values and passes the
engine's validity check, the run produces exactly one completed dataset — the
single chain seeded with 42 — and that chain is exactly three refinement
passes applied after initialization, independent of the dataset. -/
theorem C8_three_iterations_one_chain (g : Globals) (numCols : List String) (d s : Dataset)
    (hd : g.data = some d) (hs : sanitizeE numCols d = Except.ok s)
    (hm : missingColNames s ≠ []) (hval : checkValidity numCols s = none) :
    (start_imputation g numCols).completedOf.length = 1 ∧
    (start_imputation g numCols).completedOf = [chainRun 3 numCols 42 s] ∧
    chainRun 3 numCols 42 s =
      ⟨refinePass numCols s (refinePass numCols s (refinePass numCols s
        (initAll numCols s.cols 42)))⟩ := by
  have he := engineRun_3_1 42 hval
  have hnod := checkValidity_none_nodup hval
  rw [start_imputation_sanitized hd hs, afterSanitize_engineOk hnod hm he]
  exact ⟨rfl, rfl, rfl⟩

theorem C8_witness : (start_imputation gW ["age"]).completedOf.length = 1 :=
  (C8_three_iterations_one_chain gW ["age"] dW sW (by decide) (by decide) (by decide)
    (by decide)).1

/-- C9 counterexample: sanitization is not idempotent — in a declared
Continuous column the string "inf" parses as a number (the float infinity)
and is stored as such by rule 3, and a second sanitization pass maps that
infinity to MISSING by rule 1. -/
theorem C9_counterexample :
    sanitizeE ["x"] dInf = Except.ok ⟨[⟨"x", [Cell.posInf]⟩]⟩ ∧
    sanitizeE ["x"] ⟨[⟨"x", [Cell.posInf]⟩]⟩ = Except.ok ⟨[⟨"x", [Cell.missing]⟩]⟩ ∧
    (⟨[⟨"x", [Cell.missing]⟩]⟩ : Dataset) ≠ ⟨[⟨"x", [Cell.posInf]⟩]⟩ := by decide

/-- C9 (amended): sanitization is idempotent — `Sanitizer(Sanitizer(D)) =
Sanitizer(D)` — provided no declared Continuous column of D contains a string
that parses to ±infinity; such strings are the only violation, sanitizing to
±inf which only the next pass turns into MISSING. -/
theorem C9_idempotent (numCols : List String) (d s : Dataset) (hnd : numCols.Nodup)
    (hsel : ∀ nm ∈ numCols, d.cols.countP (fun c => decide (c.name = nm)) = 1)
    (hinf : noInfString numCols d = true)
    (hs : sanitizeE numCols d = Except.ok s) :
    sanitizeE numCols s = Except.ok s := by
  have hspec := noInfString_spec hinf
  rw [sanitizeE_ok_shape hnd hsel] at hs
  have hs2 : s = sanitizedShape numCols d := (Except.ok.inj hs).symm
  subst hs2
  have hsel2 : ∀ nm ∈ numCols,
      (sanitizedShape numCols d).cols.countP (fun c => decide (c.name = nm)) = 1 := by
    intro nm hm
    rw [sanitizedShape_countP]
    exact hsel nm hm
  rw [sanitizeE_ok_shape hnd hsel2]
  congr 1
  conv_lhs => unfold sanitizedShape
  conv_rhs => unfold sanitizedShape
  simp only [List.map_map]
  congr 1
  apply List.map_congr_left
  intro c hc
  dsimp only [Function.comp]
  congr 1
  rw [List.map_map]
  apply List.map_congr_left
  intro x hx
  exact specSanitizeCell_idem (fun hb t hxt =>
    hspec c hc (by simpa using hb) x hx t hxt)

theorem C9_witness :
    sanitizeE ["a"] (sanitizedShape ["a"] dNum) = Except.ok (sanitizedShape ["a"] dNum) :=
  C9_idempotent ["a"] dNum (sanitizedShape ["a"] dNum) (by decide) (by decide) (by decide)
    (by decide)

/-- C10: when the (spec-modelled) chained-equations step fails, the exception
is caught: the run still returns normally, reports the failure in an error
box, writes no output workbook and no diagnostic images, leaves the module
globals (the loaded dataset among them) unchanged, and produces no completed
dataset.  Column names must be unique to reach the kernel calls at all — a
duplicate-labelled frame crashes, uncaught, at line 91 before the `try`
block. -/
theorem C10_engine_exception (g : Globals) (numCols : List String) (d s : Dataset)
    (e : EngineError) (hd : g.data = some d) (hs : sanitizeE numCols d = Except.ok s)
    (hnod : s.names.Nodup) (hm : missingColNames s ≠ [])
    (he : engineRun 3 1 numCols 42 s = Except.error e) :
    (start_imputation g numCols).isFinished = true ∧
    (start_imputation g numCols).errOf = some (failPrefix ++ renderErr e) ∧
    (start_imputation g numCols).workbookOf = none ∧
    (start_imputation g numCols).imagesOf = [] ∧
    (start_imputation g numCols).globalsOf = some g ∧
    (start_imputation g numCols).completedOf = [] := by
  rw [start_imputation_sanitized hd hs, afterSanitize_fail hnod hm he]
  exact ⟨rfl, rfl, rfl, rfl, rfl, rfl⟩

theorem C10_witness :
    (start_imputation gRag []).workbookOf = none ∧
    (start_imputation gRag []).globalsOf = some gRag :=
  ⟨(C10_engine_exception gRag [] dRag dRag eEmpty (by decide) (by decide) (by decide)
      (by decide) (by decide)).2.2.1,
   (C10_engine_exception gRag [] dRag dRag eEmpty (by decide) (by decide) (by decide)
      (by decide) (by decide)).2.2.2.2.1⟩
